import Mathlib

/-!
Verification of the GAS.Core object-schema validation engine.

The definitions below are a shallow embedding of the validation core:
the value-validation rule hierarchy (`ArrayValueValidation`,
`BasicValueValidation`, `InverseValueValidation`, `NullValueValidation`,
`SubObjectValueValidation` from `Foundation/Schema/Objects.ts` and
`src/Foundation/Schema/ValueValidation/*`), the schema-property model
(`SchemaProperty.ts`, `InvalidProperty.ts`), the aggregate `Schema` and the
`SchemaCollection` backed by `Dictionary` (`Foundation/Schema/Objects.ts`,
`src/Encryption/IEncryptionProvider.ts`).

Modelling conventions:
* The dynamic value universe is `JValue` (parsed-JSON values plus
  `undefined`, plus opaque stand-ins for symbols, bigints and functions, so
  that every `typeof` tag is inhabited).
* JavaScript exceptions are modelled with `Except String`; the validation
  functions return `Except String (result, failureReason, value)` where the
  middle component is what reading the instance's `failureReason` getter
  immediately after the call yields, and the last component is the tested
  value as left behind by the call (threaded explicitly so that absence of
  mutation is a provable statement rather than a modelling artifact).
* The `in` operator throws a TypeError on primitive operands; member reads
  throw only on `null`/`undefined`.  The prototype chain is not modelled:
  key lookup on plain objects is own-key lookup, which is the JSON-value
  model the engine is specified against.
* `SchemaProperty.isValid` in the source contains a bare `return;` in the
  optional-and-absent branch, so that `boolean`-typed method can also
  return `undefined`; its result is therefore modelled with the
  three-valued `JSRet`.
-/

/-- A JavaScript/JSON-like dynamic value. -/
inductive JValue where
  | undefinedV
  | null
  | bool (b : Bool)
  | num (n : Int)
  | str (s : String)
  | sym (id : Nat)
  | bigintV (n : Int)
  | fn (id : Nat)
  | arr (elems : List JValue)
  | obj (fields : List (String × JValue))

/-- The result of the JavaScript `typeof` operator on a `JValue`. -/
def typeofTag : JValue → String
  | .undefinedV => "undefined"
  | .null => "object"
  | .bool _ => "boolean"
  | .num _ => "number"
  | .str _ => "string"
  | .sym _ => "symbol"
  | .bigintV _ => "bigint"
  | .fn _ => "function"
  | .arr _ => "object"
  | .obj _ => "object"

/-- JavaScript `Array.isArray`. -/
def isArrayV : JValue → Bool
  | .arr _ => true
  | _ => false

/-- JavaScript strict equality against `null` (`value === null`). -/
def isNullV : JValue → Bool
  | .null => true
  | _ => false

/-- JavaScript strict equality against `undefined` (`value === undefined`). -/
def isUndefV : JValue → Bool
  | .undefinedV => true
  | _ => false

/-- Decimal digits to a natural number (none on a non-digit). -/
def digitsToNat (acc : Nat) : List Char → Option Nat
  | [] => some acc
  | c :: rest => if c.isDigit then digitsToNat (acc * 10 + (c.toNat - 48)) rest else none

/-- Canonical JavaScript array-index reading of a string key: the string is
the plain decimal rendering (no leading zeros) of a natural number below
2^32 - 1.  Such keys are the ones the ECMAScript object model enumerates
first, in ascending numeric order. -/
def jsArrayIndex (s : String) : Option Nat :=
  match s.toList with
  | [] => none
  | c :: rest =>
    if c = '0' then (if rest.isEmpty then some 0 else none)
    else match digitsToNat 0 (c :: rest) with
      | some n => if n < 4294967295 then some n else none
      | none => none

/-- Own-key test on the field list of a plain object. -/
def objHasKey (fields : List (String × JValue)) (k : String) : Bool :=
  fields.any (fun p => p.1 = k)

/-- Own-key read on the field list of a plain object (`undefined` when the
key is absent). -/
def objGet (fields : List (String × JValue)) (k : String) : JValue :=
  match fields.find? (fun p => p.1 = k) with
  | some p => p.2
  | none => .undefinedV

/-- Own-key write on the field list of a plain object: an existing key keeps
its position (JavaScript assignment does not move a property), a new key is
appended in insertion order. -/
def objSet (fields : List (String × JValue)) (k : String) (v : JValue) :
    List (String × JValue) :=
  match fields with
  | [] => [(k, v)]
  | p :: rest => if p.1 = k then (k, v) :: rest else p :: objSet rest k v

/-- JavaScript `delete obj[k]` on the field list of a plain object. -/
def objDelete (fields : List (String × JValue)) (k : String) :
    List (String × JValue) :=
  fields.filter (fun p => ¬(p.1 = k))

/-- Message of the TypeError raised by `k in v` on a primitive operand. -/
def inOperatorError (k : String) : String :=
  "TypeError: Cannot use \x27in\x27 operator to search for \x27" ++ k ++ "\x27 in value"

/-- Message of the TypeError raised by reading a member of `null`/`undefined`. -/
def memberOfNullError (k : String) : String :=
  "TypeError: Cannot read properties of null or undefined (reading \x27" ++ k ++ "\x27)"

/-- The JavaScript `in` operator, `k in v`.  Defined for objects, arrays and
functions; throws a TypeError on every primitive operand (including `null`
and `undefined`).  For arrays the own keys are the valid indices and
`length`; for functions own keys are not modelled (no claim depends on
them). -/
def jin (k : String) : JValue → Except String Bool
  | .obj fields => .ok (objHasKey fields k)
  | .arr elems =>
    .ok (k = "length" ||
      (match jsArrayIndex k with
       | some i => decide (i < elems.length)
       | none => false))
  | .fn _ => .ok false
  | .undefinedV => .error (inOperatorError k)
  | .null => .error (inOperatorError k)
  | .bool _ => .error (inOperatorError k)
  | .num _ => .error (inOperatorError k)
  | .str _ => .error (inOperatorError k)
  | .sym _ => .error (inOperatorError k)
  | .bigintV _ => .error (inOperatorError k)

/-- The JavaScript member read `v[k]`.  Throws only on `null`/`undefined`;
boxed primitives yield `undefined` for unknown keys; arrays expose their
elements and `length`; strings expose their characters and `length`. -/
def jget (k : String) : JValue → Except String JValue
  | .obj fields => .ok (objGet fields k)
  | .arr elems =>
    .ok (if k = "length" then .num (Int.ofNat elems.length)
         else match jsArrayIndex k with
           | some i => match elems.get? i with
             | some e => e
             | none => .undefinedV
           | none => .undefinedV)
  | .str s =>
    .ok (if k = "length" then .num (Int.ofNat s.length)
         else match jsArrayIndex k with
           | some i => match s.toList.get? i with
             | some c => .str (String.mk [c])
             | none => .undefinedV
           | none => .undefinedV)
  | .undefinedV => .error (memberOfNullError k)
  | .null => .error (memberOfNullError k)
  | .bool _ => .ok .undefinedV
  | .num _ => .ok .undefinedV
  | .sym _ => .ok .undefinedV
  | .bigintV _ => .ok .undefinedV
  | .fn _ => .ok .undefinedV

/-- The JavaScript member write `v[k] = x`.  Supported on plain objects (the
only shape the engine ever writes to); on every other operand the model
raises an error, matching strict-mode JavaScript where assignment to a
primitive's property throws. -/
def jset (k : String) (x : JValue) : JValue → Except String JValue
  | .obj fields => .ok (.obj (objSet fields k x))
  | _ => .error ("TypeError: Cannot create property \x27" ++ k ++ "\x27 on a non-object value")

/-- The JavaScript `delete v[k]` statement, as used by
`InvalidProperty.testApplyDefault`.  Supported on plain objects. -/
def jdel (k : String) : JValue → Except String JValue
  | .obj fields => .ok (.obj (objDelete fields k))
  | _ => .error ("TypeError: Cannot delete property \x27" ++ k ++ "\x27 on a non-object value")

/-- The `BasicType` enum of `Foundation/Schema/Objects.ts`. -/
inductive BasicType where
  | Undefined
  | Boolean
  | Number
  | String
  | Symbol
  | BigInt
  | Object
  | Function
  deriving DecidableEq

/-- `BasicValueValidation.expectedString`: the `typeof` tag expected for each
`BasicType`.  The source's `default: throw` branch is unreachable here
because the enum is closed. -/
def expectedString : BasicType → String
  | .Undefined => "undefined"
  | .Boolean => "boolean"
  | .Number => "number"
  | .String => "string"
  | .Symbol => "symbol"
  | .BigInt => "bigint"
  | .Object => "object"
  | .Function => "function"

mutual
/-- The closed hierarchy of `IValueValidation` implementers:
`BasicValueValidation` (expected type), `ArrayValueValidation` (optional
OR-combined child rules; the constructor stores them sorted by ascending
complexity), `NullValueValidation`, `InverseValueValidation` (wrapped rule)
and `SubObjectValueValidation` (nested schema). -/
inductive IValueValidation where
  | BasicValueValidation (expected : BasicType)
  | ArrayValueValidation (childRules : Option (List IValueValidation))
  | NullValueValidation
  | InverseValueValidation (rule : IValueValidation)
  | SubObjectValueValidation (schema : Schema)

/-- The closed hierarchy of `ISchemaProperty` implementers: `SchemaProperty`
(name, optional OR-combined rules, optional flag, default value) and
`InvalidProperty` (the named property must be absent). -/
inductive ISchemaProperty where
  | SchemaProperty (name : String) (rules : Option (List IValueValidation))
      (isOptional : Bool) (defaultValue : JValue)
  | InvalidProperty (name : String)

/-- A `Schema`: an ordered collection of schema properties.  The source
constructor rejects an empty list; `Schema.new` below models that check,
while the inductive itself is the post-construction state. -/
inductive Schema where
  | mk (properties : List ISchemaProperty)
end

mutual
/-- `complexity` getter of each value-validation rule. -/
def IValueValidation.complexity : IValueValidation → Nat
  | .BasicValueValidation _ => 2
  | .ArrayValueValidation none => 2
  | .ArrayValueValidation (some cs) => 2 + IValueValidation.complexityList cs
  | .NullValueValidation => 1
  | .InverseValueValidation r => 1 + r.complexity
  | .SubObjectValueValidation s => s.complexity

/-- Sum of the complexities of a list of rules. -/
def IValueValidation.complexityList : List IValueValidation → Nat
  | [] => 0
  | r :: rs => r.complexity + IValueValidation.complexityList rs

/-- `complexity` getter of each schema property. -/
def ISchemaProperty.complexity : ISchemaProperty → Nat
  | .SchemaProperty _ none _ _ => 1
  | .SchemaProperty _ (some rs) _ _ => 1 + IValueValidation.complexityList rs
  | .InvalidProperty _ => 1

/-- Sum of the complexities of a list of schema properties. -/
def ISchemaProperty.complexityList : List ISchemaProperty → Nat
  | [] => 0
  | p :: ps => p.complexity + ISchemaProperty.complexityList ps

/-- `Schema.complexity`: one plus the sum over the contained properties. -/
def Schema.complexity : Schema → Nat
  | .mk props => 1 + ISchemaProperty.complexityList props
end

/-- `ISchemaProperty.name` getter. -/
def ISchemaProperty.name : ISchemaProperty → String
  | .SchemaProperty n _ _ _ => n
  | .InvalidProperty n => n

mutual
/-- `displayString` getter of each value-validation rule. -/
def IValueValidation.displayString : IValueValidation → String
  | .BasicValueValidation e => "value === \x27" ++ expectedString e ++ "\x27"
  | .ArrayValueValidation none => "[IsArray]"
  | .ArrayValueValidation (some cs) =>
    if cs.isEmpty then "[IsArray]"
    else "[IsArray | " ++ String.intercalate " | " (IValueValidation.displayList cs) ++ "]"
  | .NullValueValidation => "value === null"
  | .InverseValueValidation r => "!(" ++ r.displayString ++ ")"
  | .SubObjectValueValidation s => s.displayString

/-- Display strings of a list of rules, in list order. -/
def IValueValidation.displayList : List IValueValidation → List String
  | [] => []
  | r :: rs => r.displayString :: IValueValidation.displayList rs

/-- `displayString` getter of each schema property. -/
def ISchemaProperty.displayString : ISchemaProperty → String
  | .SchemaProperty n rules opt _ =>
    "\x27" ++ n ++ "\x27 " ++ (if opt then "Optionally" else "") ++ " Included" ++
      (match rules with
       | none => ""
       | some rs =>
         if rs.isEmpty then ""
         else " with [" ++ String.intercalate " | " (IValueValidation.displayList rs) ++ "]")
  | .InvalidProperty n => "!(" ++ n ++ " in obj)"

/-- Display strings of a list of schema properties, in list order. -/
def ISchemaProperty.displayList : List ISchemaProperty → List String
  | [] => []
  | p :: ps =>
    ("\"" ++ p.name ++ "\": \"" ++ p.displayString ++ "\"") :: ISchemaProperty.displayList ps

/-- `Schema.displayString`: a braced, newline-and-tab separated listing of
each property and its display string. -/
def Schema.displayString : Schema → String
  | .mk props =>
    "\x7b\n\t" ++ String.intercalate "\n\t" (ISchemaProperty.displayList props) ++ "\n\x7d"
end

/-- The three-valued result of `SchemaProperty.isValid`: the method is typed
`boolean` but its optional-and-absent branch executes a bare `return;`,
which in JavaScript produces `undefined`. -/
inductive JSRet where
  | tru
  | fls
  | undefRet
  deriving DecidableEq

/-- JavaScript truthiness of a `JSRet` (how callers test the returned
value). -/
def JSRet.truthy : JSRet → Bool
  | .tru => true
  | .fls => false
  | .undefRet => false

mutual
/-- `isValueValid` of each rule (`Foundation/Schema/Objects.ts`).  The
returned triple is (boolean result, the rule's `failureReason` as read right
after the call, the tested value after the call).  `BasicValueValidation`
and `ArrayValueValidation` store their reason and reset it to `""` at the
start of each call; `NullValueValidation`, `InverseValueValidation` and
`SubObjectValueValidation` compute theirs in a getter, so their reported
reason is the getter's value whatever the outcome. -/
def IValueValidation.isValueValid : IValueValidation → JValue → Except String (Bool × String × JValue)
  | .BasicValueValidation e, v =>
    if typeofTag v = expectedString e then .ok (true, "", v)
    else .ok (false,
      "Value was of type \x27" ++ typeofTag v ++ "\x27 when was expecting \x27" ++
        expectedString e ++ "\x27", v)
  | .NullValueValidation, v => .ok (isNullV v, "Value was not null", v)
  | .InverseValueValidation r, v =>
    match r.isValueValid v with
    | .ok (b, _, v') => .ok (!b, r.displayString ++ " was valid", v')
    | .error e => .error e
  | .ArrayValueValidation children, .arr elems =>
    match children with
    | none => .ok (true, "", .arr elems)
    | some cs =>
      match IValueValidation.arrLoop cs elems 0 with
      | .ok (none, elems') => .ok (true, "", .arr elems')
      | .ok (some msg, elems') => .ok (false, msg, .arr elems')
      | .error e => .error e
  | .ArrayValueValidation _, .undefinedV => .ok (false, "Supplied value was not an array", .undefinedV)
  | .ArrayValueValidation _, .null => .ok (false, "Supplied value was not an array", .null)
  | .ArrayValueValidation _, .bool b => .ok (false, "Supplied value was not an array", .bool b)
  | .ArrayValueValidation _, .num n => .ok (false, "Supplied value was not an array", .num n)
  | .ArrayValueValidation _, .str s => .ok (false, "Supplied value was not an array", .str s)
  | .ArrayValueValidation _, .sym i => .ok (false, "Supplied value was not an array", .sym i)
  | .ArrayValueValidation _, .bigintV n => .ok (false, "Supplied value was not an array", .bigintV n)
  | .ArrayValueValidation _, .fn i => .ok (false, "Supplied value was not an array", .fn i)
  | .ArrayValueValidation _, .obj fs => .ok (false, "Supplied value was not an array", .obj fs)
  | .SubObjectValueValidation s, v =>
    match s.isValid v with
    | .ok (b, fr, v') => .ok (b, fr, v')
    | .error e => .error e

/-- The OR-combination loop over a rule list: return true on the first rule
that matches (later rules are not run), false when every rule failed.  The
string list collects each examined rule's `failureReason` as read after the
loop, in rule order; when the loop returns false that list is complete. -/
def IValueValidation.orLoop : List IValueValidation → JValue → Except String (Bool × List String × JValue)
  | [], v => .ok (false, [], v)
  | r :: rs, v =>
    match r.isValueValid v with
    | .ok (true, fr, v') => .ok (true, [fr], v')
    | .ok (false, fr, v') =>
      match IValueValidation.orLoop rs v' with
      | .ok (b2, frs, v'') => .ok (b2, fr :: frs, v'')
      | .error e => .error e
    | .error e => .error e

/-- The element loop of `ArrayValueValidation.isValueValid`: each element
must match at least one child rule; on the first element that matches none
the loop stops and produces the failure message built from the child rules'
`failureReason` getters. -/
def IValueValidation.arrLoop : List IValueValidation → List JValue → Nat → Except String (Option String × List JValue)
  | _, [], _ => .ok (none, [])
  | cs, e :: rest, i =>
    match IValueValidation.orLoop cs e with
    | .ok (true, _, e') =>
      match IValueValidation.arrLoop cs rest (i + 1) with
      | .ok (res, rest') => .ok (res, e' :: rest')
      | .error er => .error er
    | .ok (false, frs, e') =>
      .ok (some ("Array value at index " ++ toString i ++ " failed conditions [" ++
        String.intercalate " | " frs ++ "]"), e' :: rest)
    | .error er => .error er

/-- `isValid` of each schema property
(`src/Foundation/Schema/Properties/SchemaProperty.ts`, `InvalidProperty.ts`).
The `SchemaProperty` variant resets its failure reason, tests `name in obj`
(which throws on primitive operands), returns bare `undefined` when the
property is absent but optional (the source's `return;`), message-and-false
when absent and required, true when present with no rules, and otherwise
OR-combines the rules over `obj[name]`.  The `InvalidProperty` variant is
valid iff `obj[name] === undefined`; its `failureReason` is a getter.  The
rule calls read the extracted value only (proved below), so the object is
returned unchanged exactly as the source leaves it. -/
def ISchemaProperty.isValid : ISchemaProperty → JValue → Except String (JSRet × String × JValue)
  | .SchemaProperty name rules opt _, obj =>
    match jin name obj with
    | .error e => .error e
    | .ok false =>
      if opt then .ok (.undefRet, "", obj)
      else .ok (.fls, "Value is missing property \x27" ++ name ++ "\x27", obj)
    | .ok true =>
      match rules with
      | none => .ok (.tru, "", obj)
      | some rs =>
        if rs.isEmpty then .ok (.tru, "", obj)
        else
          match jget name obj with
          | .error e => .error e
          | .ok value =>
            match IValueValidation.orLoop rs value with
            | .ok (true, _, _) => .ok (.tru, "", obj)
            | .ok (false, frs, _) =>
              .ok (.fls, "\x27" ++ name ++ "\x27 failed conditions [" ++
                String.intercalate " | " frs ++ "]", obj)
            | .error e => .error e
  | .InvalidProperty name, obj =>
    match jget name obj with
    | .error e => .error e
    | .ok v =>
      .ok (if isUndefV v then .tru else .fls,
        "Value had property \x27" ++ name ++ "\x27", obj)

/-- The property loop of `Schema.isValid`: every property is evaluated (no
short-circuit); a property whose result is not truthy marks failure and
appends its `failureReason` to the accumulator, newline-separated, with the
first appended reason replacing the initial empty accumulator. -/
def ISchemaProperty.allLoop : List ISchemaProperty → JValue → Bool → String → Except String (Bool × String × JValue)
  | [], obj, success, acc => .ok (success, acc, obj)
  | p :: ps, obj, success, acc =>
    match p.isValid obj with
    | .error e => .error e
    | .ok (r, fr, obj') =>
      if r.truthy then ISchemaProperty.allLoop ps obj' success acc
      else ISchemaProperty.allLoop ps obj' false (if acc = "" then fr else acc ++ "\n" ++ fr)

/-- `Schema.isValid` (`Foundation/Schema/Objects.ts` lines 94-115): reset
the failure reason to `""`, then run every property, accumulating failing
properties' reasons; the middle component of the result is the schema's
`failureReason` after the call. -/
def Schema.isValid : Schema → JValue → Except String (Bool × String × JValue)
  | .mk props, obj => ISchemaProperty.allLoop props obj true ""
end

/-- `testApplyDefault` (`SchemaProperty.ts` lines 109-113,
`InvalidProperty.ts`): run `isValid`; when the result is falsy, the
`SchemaProperty` variant assigns `obj[name] = defaultValue` and the
`InvalidProperty` variant deletes `obj[name]`.  Returns the object left
behind. -/
def ISchemaProperty.testApplyDefault : ISchemaProperty → JValue → Except String JValue
  | .SchemaProperty name rules opt dflt, obj =>
    match (ISchemaProperty.SchemaProperty name rules opt dflt).isValid obj with
    | .error e => .error e
    | .ok (r, _, obj') => if r.truthy then .ok obj' else jset name dflt obj'
  | .InvalidProperty name, obj =>
    match (ISchemaProperty.InvalidProperty name).isValid obj with
    | .error e => .error e
    | .ok (r, _, obj') => if r.truthy then .ok obj' else jdel name obj'

/-- The property loop of `Schema.applyDefaultProperties`. -/
def ISchemaProperty.applyLoop : List ISchemaProperty → JValue → Except String JValue
  | [], obj => .ok obj
  | p :: ps, obj =>
    match p.testApplyDefault obj with
    | .error e => .error e
    | .ok obj' => ISchemaProperty.applyLoop ps obj'

/-- `Schema.applyDefaultProperties`: `testApplyDefault` on every property,
unconditionally, in declaration order. -/
def Schema.applyDefaultProperties : Schema → JValue → Except String JValue
  | .mk props, obj => ISchemaProperty.applyLoop props obj

/-- The `Schema` constructor check: an empty (or absent) property list is a
construction error. -/
def Schema.new (properties : List ISchemaProperty) : Except String Schema :=
  if properties.isEmpty then
    .error "ArgumentNullException: There were no properties supplied to the object schema for use"
  else .ok (.mk properties)

/-- Stable insertion into a rank-sorted list: the new element goes after
existing elements of equal rank, which is the ES2019 stable-sort
behaviour. -/
def insertByRank (rank : α → Nat) (x : α) : List α → List α
  | [] => [x]
  | y :: ys => if rank x < rank y then x :: y :: ys else y :: insertByRank rank x ys

/-- Stable ascending sort by a numeric rank (insertion sort over the list
in order, so ties keep their original relative order). -/
def sortByRank (rank : α → Nat) (l : List α) : List α :=
  l.foldl (fun acc x => insertByRank rank x acc) []

/-- Stable ascending sort by complexity, as performed by the
`ArrayValueValidation` and `SchemaProperty` constructors on their rule
lists (`sort((l, r) => l.complexity - r.complexity)`). -/
def sortByComplexity (rs : List IValueValidation) : List IValueValidation :=
  sortByRank IValueValidation.complexity rs

/-- The `ArrayValueValidation` constructor: sorts the child rules (when a
list was supplied) ascending by complexity. -/
def ArrayValueValidation.new (childRules : Option (List IValueValidation)) : IValueValidation :=
  .ArrayValueValidation (childRules.map sortByComplexity)

/-- The `SchemaProperty` constructor: sorts the rules (when a list was
supplied) ascending by complexity. -/
def SchemaProperty.new (name : String) (rules : Option (List IValueValidation))
    (isOptional : Bool) (defaultValue : JValue) : ISchemaProperty :=
  .SchemaProperty name (rules.map sortByComplexity) isOptional defaultValue

/-- The `Dictionary<Schema>` of `src/Encryption/IEncryptionProvider.ts`: a
wrapper over a plain JavaScript object, kept here as the entry list in
insertion order. -/
structure Dictionary where
  entries : List (String × Schema)

/-- `Dictionary.hasKey` (`key in this._dictionary`). -/
def Dictionary.hasKey (d : Dictionary) (k : String) : Bool :=
  d.entries.any (fun p => p.1 = k)

/-- `Dictionary.getKeys` = `Object.keys(this._dictionary)`.  ECMAScript own
property enumeration lists canonical array-index keys first, in ascending
numeric order, and only then the remaining string keys in insertion
order. -/
def Dictionary.getKeys (d : Dictionary) : List String :=
  let ks := d.entries.map (fun p => p.1)
  sortByRank (fun k => (jsArrayIndex k).getD 0) (ks.filter (fun k => (jsArrayIndex k).isSome)) ++
    ks.filter (fun k => (jsArrayIndex k).isNone)

/-- `Dictionary.add`: throws a `DuplicateKeyException` when the key is
already present, otherwise the assignment creates the key at the end of the
insertion order. -/
def Dictionary.add (d : Dictionary) (k : String) (v : Schema) : Except String Dictionary :=
  if d.hasKey k then
    .error ("DuplicateKeyException: There is already a value stored under the key \x27" ++ k ++ "\x27")
  else .ok ⟨d.entries ++ [(k, v)]⟩

/-- `Dictionary.replace`: plain assignment; an existing key keeps its
position and gets the new value, a new key is appended. -/
def Dictionary.replace (d : Dictionary) (k : String) (v : Schema) : Dictionary :=
  if d.hasKey k then ⟨objSetSchema d.entries k v⟩ else ⟨d.entries ++ [(k, v)]⟩
where
  /-- In-place overwrite of the first entry holding the key. -/
  objSetSchema : List (String × Schema) → String → Schema → List (String × Schema)
    | [], key, s => [(key, s)]
    | p :: rest, key, s => if p.1 = key then (key, s) :: rest else p :: objSetSchema rest key s

/-- `Dictionary.remove`: false (and no change) when the key is absent,
otherwise true and the entry is deleted. -/
def Dictionary.remove (d : Dictionary) (k : String) : Bool × Dictionary :=
  if d.hasKey k then (true, ⟨d.entries.filter (fun p => ¬(p.1 = k))⟩) else (false, d)

/-- `Dictionary.get`: throws a `MissingKeyException` when the key is
absent. -/
def Dictionary.get (d : Dictionary) (k : String) : Except String Schema :=
  match d.entries.find? (fun p => p.1 = k) with
  | some p => .ok p.2
  | none => .error ("MissingKeyException: There is no value stored in the dictionary under the key \x27" ++ k ++ "\x27")

/-- `SchemaCollection` (`Foundation/Schema/Objects.ts`): a named registry of
schemas backed by a `Dictionary`. -/
structure SchemaCollection where
  options : Dictionary

/-- `SchemaCollection.hasSchema`. -/
def SchemaCollection.hasSchema (c : SchemaCollection) (k : String) : Bool :=
  c.options.hasKey k

/-- `SchemaCollection.getSchema`: the stored schema, or null when absent. -/
def SchemaCollection.getSchema (c : SchemaCollection) (k : String) : Option Schema :=
  if c.options.hasKey k then
    match c.options.get k with
    | .ok s => some s
    | .error _ => none
  else none

/-- `SchemaCollection.addSchema`: delegates to `Dictionary.add` (fails on a
duplicate key). -/
def SchemaCollection.addSchema (c : SchemaCollection) (k : String) (s : Schema) :
    Except String SchemaCollection :=
  match c.options.add k s with
  | .ok d => .ok ⟨d⟩
  | .error e => .error e

/-- `SchemaCollection.replaceSchema`: delegates to `Dictionary.replace`
(always succeeds). -/
def SchemaCollection.replaceSchema (c : SchemaCollection) (k : String) (s : Schema) :
    SchemaCollection :=
  ⟨c.options.replace k s⟩

/-- `SchemaCollection.remove`: delegates to `Dictionary.remove`. -/
def SchemaCollection.remove (c : SchemaCollection) (k : String) : Bool × SchemaCollection :=
  match c.options.remove k with
  | (b, d) => (b, ⟨d⟩)

/-- `SchemaCollection.getSchemaKeys`. -/
def SchemaCollection.getSchemaKeys (c : SchemaCollection) : List String :=
  c.options.getKeys

/-- The key loop of `validateObjectSchema`: try each key of `getKeys` in
order, returning `[true, key]` on the first schema that validates the
object; the tested object is threaded through the schema calls. -/
def SchemaCollection.validateLoop (d : Dictionary) : List String → JValue → Except String (Bool × Option String × JValue)
  | [], obj => .ok (false, none, obj)
  | k :: ks, obj =>
    match d.get k with
    | .error e => .error e
    | .ok s =>
      match s.isValid obj with
      | .error e => .error e
      | .ok (true, _, obj') => .ok (true, some k, obj')
      | .ok (false, _, obj') => SchemaCollection.validateLoop d ks obj'

/-- `SchemaCollection.validateObjectSchema` (`Foundation/Schema/Objects.ts`
lines 197-208): scan the registered schemas in `getKeys` order and return
the first match, or `[false]` when none match. -/
def SchemaCollection.validateObjectSchema (c : SchemaCollection) (obj : JValue) :
    Except String (Bool × Option String × JValue) :=
  SchemaCollection.validateLoop c.options (c.options.getKeys) obj

/-! ### Read-only behaviour of the validation family

The source validation methods only ever read the tested value; the
following lemmas prove that the value threaded through the embedding comes
back unchanged from every successful call. -/

theorem ISchemaProperty.propIsValid_frame (p : ISchemaProperty) (v : JValue) (r : JSRet)
    (fr : String) (v' : JValue) (h : p.isValid v = .ok (r, fr, v')) : v' = v := by
  cases p with
  | SchemaProperty name rules opt dflt =>
    cases rules with
    | none =>
      rw [ISchemaProperty.isValid] at h
      repeat' split at h
      all_goals simp_all
    | some rs =>
      rw [ISchemaProperty.isValid] at h
      repeat' split at h
      all_goals simp_all
  | InvalidProperty name =>
    rw [ISchemaProperty.isValid] at h
    repeat' split at h
    all_goals simp_all

theorem ISchemaProperty.allLoop_frame (ps : List ISchemaProperty) (v : JValue) (s0 : Bool)
    (acc0 : String) (b : Bool) (m : String) (v' : JValue)
    (h : ISchemaProperty.allLoop ps v s0 acc0 = .ok (b, m, v')) : v' = v := by
  induction ps generalizing v s0 acc0 with
  | nil => simp [ISchemaProperty.allLoop] at h; exact h.2.2.symm
  | cons p ps ih =>
    rw [ISchemaProperty.allLoop] at h
    cases hp : p.isValid v with
    | error e => rw [hp] at h; simp at h
    | ok x =>
      obtain ⟨r0, fr0, v0⟩ := x
      rw [hp] at h
      simp only at h
      have hv0 : v0 = v := ISchemaProperty.propIsValid_frame p v r0 fr0 v0 hp
      by_cases hr : r0.truthy = true
      · rw [if_pos hr] at h; exact (ih v0 s0 acc0 h).trans hv0
      · rw [if_neg hr] at h; exact (ih v0 false _ h).trans hv0

theorem Schema.schemaIsValid_frame (s : Schema) (v : JValue) (b : Bool) (m : String) (v' : JValue)
    (h : s.isValid v = .ok (b, m, v')) : v' = v := by
  cases s with
  | mk props =>
    rw [Schema.isValid] at h
    exact ISchemaProperty.allLoop_frame props v true "" b m v' h

mutual

theorem IValueValidation.isValueValid_frame (r : IValueValidation) (v : JValue) (b : Bool)
    (fr : String) (v' : JValue) (h : r.isValueValid v = .ok (b, fr, v')) : v' = v := by
  match r with
  | .BasicValueValidation e =>
    rw [IValueValidation.isValueValid] at h
    split at h <;> simp_all
  | .NullValueValidation =>
    rw [IValueValidation.isValueValid] at h; simp at h; exact h.2.2.symm
  | .InverseValueValidation r0 =>
    rw [IValueValidation.isValueValid] at h
    match hr : r0.isValueValid v with
    | .ok (b0, fr0, v0) =>
      rw [hr] at h; simp at h
      exact h.2.2 ▸ IValueValidation.isValueValid_frame r0 v b0 fr0 v0 hr
    | .error e => rw [hr] at h; simp at h
  | .SubObjectValueValidation s =>
    rw [IValueValidation.isValueValid] at h
    match hs : s.isValid v with
    | .ok (b0, fr0, v0) =>
      rw [hs] at h; simp at h
      exact h.2.2 ▸ Schema.schemaIsValid_frame s v b0 fr0 v0 hs
    | .error e => rw [hs] at h; simp at h
  | .ArrayValueValidation children =>
    match v with
    | .arr elems =>
      match children with
      | none => rw [IValueValidation.isValueValid] at h; simp at h; exact h.2.2.symm
      | some cs =>
        rw [IValueValidation.isValueValid] at h
        match hl : IValueValidation.arrLoop cs elems 0 with
        | .ok (none, elems') =>
          rw [hl] at h; simp at h
          rw [h.2.2.symm, IValueValidation.arrLoop_frame cs elems 0 none elems' hl]
        | .ok (some msg, elems') =>
          rw [hl] at h; simp at h
          rw [h.2.2.symm, IValueValidation.arrLoop_frame cs elems 0 (some msg) elems' hl]
        | .error e => rw [hl] at h; simp at h
    | .undefinedV => rw [IValueValidation.isValueValid] at h; simp at h; exact h.2.2.symm
    | .null => rw [IValueValidation.isValueValid] at h; simp at h; exact h.2.2.symm
    | .bool _ => rw [IValueValidation.isValueValid] at h; simp at h; exact h.2.2.symm
    | .num _ => rw [IValueValidation.isValueValid] at h; simp at h; exact h.2.2.symm
    | .str _ => rw [IValueValidation.isValueValid] at h; simp at h; exact h.2.2.symm
    | .sym _ => rw [IValueValidation.isValueValid] at h; simp at h; exact h.2.2.symm
    | .bigintV _ => rw [IValueValidation.isValueValid] at h; simp at h; exact h.2.2.symm
    | .fn _ => rw [IValueValidation.isValueValid] at h; simp at h; exact h.2.2.symm
    | .obj _ => rw [IValueValidation.isValueValid] at h; simp at h; exact h.2.2.symm

theorem IValueValidation.orLoop_frame (rs : List IValueValidation) (v : JValue) (b : Bool)
    (frs : List String) (v' : JValue) (h : IValueValidation.orLoop rs v = .ok (b, frs, v')) :
    v' = v := by
  match rs with
  | [] => simp [IValueValidation.orLoop] at h; exact h.2.2.symm
  | r :: rest =>
    rw [IValueValidation.orLoop] at h
    match hr : r.isValueValid v with
    | .ok (true, fr0, v0) =>
      rw [hr] at h; simp at h
      exact h.2.2 ▸ IValueValidation.isValueValid_frame r v true fr0 v0 hr
    | .ok (false, fr0, v0) =>
      rw [hr] at h; simp at h
      match hl : IValueValidation.orLoop rest v0 with
      | .ok (b2, frs2, v2) =>
        rw [hl] at h; simp at h
        have e1 := IValueValidation.isValueValid_frame r v false fr0 v0 hr
        have e2 := IValueValidation.orLoop_frame rest v0 b2 frs2 v2 hl
        rw [h.2.2.symm, e2, e1]
      | .error e => rw [hl] at h; simp at h
    | .error e => rw [hr] at h; simp at h

theorem IValueValidation.arrLoop_frame (cs : List IValueValidation) (elems : List JValue)
    (i : Nat) (res : Option String) (elems' : List JValue)
    (h : IValueValidation.arrLoop cs elems i = .ok (res, elems')) : elems' = elems := by
  match elems with
  | [] => simp [IValueValidation.arrLoop] at h; exact h.2
  | e :: rest =>
    rw [IValueValidation.arrLoop] at h
    match ho : IValueValidation.orLoop cs e with
    | .ok (true, frs0, e0) =>
      rw [ho] at h; simp at h
      match hl : IValueValidation.arrLoop cs rest (i + 1) with
      | .ok (res2, rest2) =>
        rw [hl] at h; simp at h
        have e1 := IValueValidation.orLoop_frame cs e true frs0 e0 ho
        have e2 := IValueValidation.arrLoop_frame cs rest (i + 1) res2 rest2 hl
        rw [h.2.symm, e1, e2]
      | .error er => rw [hl] at h; simp at h
    | .ok (false, frs0, e0) =>
      rw [ho] at h; simp at h
      have e1 := IValueValidation.orLoop_frame cs e false frs0 e0 ho
      rw [h.2.symm, e1]
    | .error er => rw [ho] at h; simp at h

end

theorem SchemaCollection.validateLoop_frame (d : Dictionary) (ks : List String) (v : JValue)
    (b : Bool) (key : Option String) (v' : JValue)
    (h : SchemaCollection.validateLoop d ks v = .ok (b, key, v')) : v' = v := by
  induction ks generalizing v with
  | nil => simp [SchemaCollection.validateLoop] at h; exact h.2.2.symm
  | cons k rest ih =>
    rw [SchemaCollection.validateLoop] at h
    match hg : d.get k with
    | .error e => rw [hg] at h; simp at h
    | .ok s =>
      rw [hg] at h
      simp only at h
      match hs : s.isValid v with
      | .error e => rw [hs] at h; simp at h
      | .ok (true, m0, v0) =>
        rw [hs] at h; simp at h
        exact h.2.2 ▸ Schema.schemaIsValid_frame s v true m0 v0 hs
      | .ok (false, m0, v0) =>
        rw [hs] at h; simp only at h
        have e1 := Schema.schemaIsValid_frame s v false m0 v0 hs
        exact (ih v0 h).trans e1

/-! ### Throw behaviour

`jin` (the `in` operator) rejects primitive operands, so property-level
validation can throw; rule-level validation can only throw by reaching a
nested schema.  `subFree` marks the rule trees with no nested schema. -/

/-- A value on which the `in` operator throws: every primitive, including
`null` and `undefined`. -/
def jsPrimitive : JValue → Bool
  | .undefinedV => true
  | .null => true
  | .bool _ => true
  | .num _ => true
  | .str _ => true
  | .sym _ => true
  | .bigintV _ => true
  | .fn _ => false
  | .arr _ => false
  | .obj _ => false

mutual
/-- True when the rule tree contains no `SubObjectValueValidation`. -/
def IValueValidation.subFree : IValueValidation → Bool
  | .BasicValueValidation _ => true
  | .NullValueValidation => true
  | .InverseValueValidation r => r.subFree
  | .ArrayValueValidation none => true
  | .ArrayValueValidation (some cs) => IValueValidation.subFreeList cs
  | .SubObjectValueValidation _ => false

/-- `subFree` over a rule list. -/
def IValueValidation.subFreeList : List IValueValidation → Bool
  | [] => true
  | r :: rs => r.subFree && IValueValidation.subFreeList rs
end

/-- True when the property's rules contain no nested schema. -/
def ISchemaProperty.subFree : ISchemaProperty → Bool
  | .SchemaProperty _ none _ _ => true
  | .SchemaProperty _ (some rs) _ _ => IValueValidation.subFreeList rs
  | .InvalidProperty _ => true

/-- `subFree` over a property list. -/
def ISchemaProperty.subFreeList : List ISchemaProperty → Bool
  | [] => true
  | p :: ps => p.subFree && ISchemaProperty.subFreeList ps

/-- True when no property of the schema reaches a nested schema. -/
def Schema.subFree : Schema → Bool
  | .mk props => ISchemaProperty.subFreeList props

mutual

theorem IValueValidation.subFree_ok (r : IValueValidation) (v : JValue)
    (hs : r.subFree = true) : ∃ x, r.isValueValid v = .ok x := by
  match r with
  | .BasicValueValidation e =>
    rw [IValueValidation.isValueValid]
    split
    · exact ⟨_, rfl⟩
    · exact ⟨_, rfl⟩
  | .NullValueValidation => exact ⟨_, by rw [IValueValidation.isValueValid]⟩
  | .InverseValueValidation r0 =>
    rw [IValueValidation.subFree] at hs
    obtain ⟨⟨b0, fr0, v0⟩, hx⟩ := IValueValidation.subFree_ok r0 v hs
    exact ⟨(!b0, r0.displayString ++ " was valid", v0), by simp only [IValueValidation.isValueValid, hx]⟩
  | .ArrayValueValidation children =>
    match v with
    | .arr elems =>
      match children with
      | none => exact ⟨_, by rw [IValueValidation.isValueValid]⟩
      | some cs =>
        rw [IValueValidation.subFree] at hs
        obtain ⟨⟨res, elems'⟩, hl⟩ := IValueValidation.subFreeList_arrLoop_ok cs elems 0 hs
        match res with
        | none => exact ⟨(true, "", .arr elems'), by simp only [IValueValidation.isValueValid, hl]⟩
        | some msg => exact ⟨(false, msg, .arr elems'), by simp only [IValueValidation.isValueValid, hl]⟩
    | .undefinedV => exact ⟨_, by rw [IValueValidation.isValueValid]⟩
    | .null => exact ⟨_, by rw [IValueValidation.isValueValid]⟩
    | .bool _ => exact ⟨_, by rw [IValueValidation.isValueValid]⟩
    | .num _ => exact ⟨_, by rw [IValueValidation.isValueValid]⟩
    | .str _ => exact ⟨_, by rw [IValueValidation.isValueValid]⟩
    | .sym _ => exact ⟨_, by rw [IValueValidation.isValueValid]⟩
    | .bigintV _ => exact ⟨_, by rw [IValueValidation.isValueValid]⟩
    | .fn _ => exact ⟨_, by rw [IValueValidation.isValueValid]⟩
    | .obj _ => exact ⟨_, by rw [IValueValidation.isValueValid]⟩

theorem IValueValidation.subFreeList_orLoop_ok (rs : List IValueValidation) (v : JValue)
    (hs : IValueValidation.subFreeList rs = true) :
    ∃ x, IValueValidation.orLoop rs v = .ok x := by
  match rs with
  | [] => exact ⟨_, by rw [IValueValidation.orLoop]⟩
  | r :: rest =>
    rw [IValueValidation.subFreeList, Bool.and_eq_true] at hs
    obtain ⟨⟨b0, fr0, v0⟩, hr⟩ := IValueValidation.subFree_ok r v hs.1
    match b0 with
    | true => exact ⟨(true, [fr0], v0), by simp only [IValueValidation.orLoop, hr]⟩
    | false =>
      obtain ⟨⟨b2, frs2, v2⟩, hl⟩ := IValueValidation.subFreeList_orLoop_ok rest v0 hs.2
      exact ⟨(b2, fr0 :: frs2, v2), by simp only [IValueValidation.orLoop, hr, hl]⟩

theorem IValueValidation.subFreeList_arrLoop_ok (cs : List IValueValidation) (elems : List JValue)
    (i : Nat) (hs : IValueValidation.subFreeList cs = true) :
    ∃ x, IValueValidation.arrLoop cs elems i = .ok x := by
  match elems with
  | [] => exact ⟨_, by rw [IValueValidation.arrLoop]⟩
  | e :: rest =>
    obtain ⟨⟨b0, frs0, e0⟩, ho⟩ := IValueValidation.subFreeList_orLoop_ok cs e hs
    match b0 with
    | true =>
      obtain ⟨⟨res2, rest2⟩, hl⟩ := IValueValidation.subFreeList_arrLoop_ok cs rest (i + 1) hs
      exact ⟨(res2, e0 :: rest2), by simp only [IValueValidation.arrLoop, ho, hl]⟩
    | false =>
      exact ⟨(some ("Array value at index " ++ toString i ++ " failed conditions [" ++
        String.intercalate " | " frs0 ++ "]"), e0 :: rest), by simp only [IValueValidation.arrLoop, ho]⟩

end

theorem ISchemaProperty.propSubFree_ok_on_object (p : ISchemaProperty)
    (fields : List (String × JValue)) (hs : p.subFree = true) :
    ∃ x, p.isValid (.obj fields) = .ok x := by
  match p with
  | .InvalidProperty name => exact ⟨_, by rw [ISchemaProperty.isValid, jget]⟩
  | .SchemaProperty name none opt dflt =>
    rw [ISchemaProperty.isValid, jin]
    match objHasKey fields name with
    | true => exact ⟨_, rfl⟩
    | false =>
      match opt with
      | true => exact ⟨_, rfl⟩
      | false => exact ⟨_, rfl⟩
  | .SchemaProperty name (some rs) opt dflt =>
    rw [ISchemaProperty.subFree] at hs
    rw [ISchemaProperty.isValid, jin]
    match objHasKey fields name with
    | false =>
      match opt with
      | true => exact ⟨_, rfl⟩
      | false => exact ⟨_, rfl⟩
    | true =>
      simp only [jget]
      match hre : rs.isEmpty with
      | true => rw [if_pos rfl]; exact ⟨_, rfl⟩
      | false =>
        rw [if_neg (by simp [hre])]
        obtain ⟨⟨b0, frs0, v0⟩, ho⟩ := IValueValidation.subFreeList_orLoop_ok rs (objGet fields name) hs
        match b0 with
        | true => rw [ho]; exact ⟨_, rfl⟩
        | false => rw [ho]; exact ⟨_, rfl⟩

theorem ISchemaProperty.subFreeList_allLoop_ok (ps : List ISchemaProperty)
    (fields : List (String × JValue)) (s0 : Bool) (acc0 : String)
    (hs : ISchemaProperty.subFreeList ps = true) :
    ∃ x, ISchemaProperty.allLoop ps (.obj fields) s0 acc0 = .ok x := by
  induction ps generalizing fields s0 acc0 with
  | nil => exact ⟨_, by rw [ISchemaProperty.allLoop]⟩
  | cons p rest ih =>
    rw [ISchemaProperty.subFreeList, Bool.and_eq_true] at hs
    obtain ⟨⟨r0, fr0, v0⟩, hp⟩ := ISchemaProperty.propSubFree_ok_on_object p fields hs.1
    have hv0 := ISchemaProperty.propIsValid_frame p (.obj fields) r0 fr0 v0 hp
    subst hv0
    obtain ⟨x2, h2⟩ := ih fields s0 acc0 hs.2
    obtain ⟨x3, h3⟩ := ih fields false (if acc0 = "" then fr0 else acc0 ++ "\n" ++ fr0) hs.2
    by_cases hr : r0.truthy = true
    · exact ⟨x2, by rw [ISchemaProperty.allLoop, hp]; simp only [hr, if_true]; exact h2⟩
    · refine ⟨x3, ?_⟩
      rw [ISchemaProperty.allLoop, hp]
      simp only [hr, if_false]
      exact h3

theorem Schema.schemaSubFree_ok_on_object (s : Schema) (fields : List (String × JValue))
    (hs : s.subFree = true) : ∃ x, s.isValid (.obj fields) = .ok x := by
  match s with
  | .mk props =>
    rw [Schema.subFree] at hs
    rw [Schema.isValid]
    exact ISchemaProperty.subFreeList_allLoop_ok props fields true "" hs

theorem ISchemaProperty.isValid_throws_on_primitive (name : String)
    (rules : Option (List IValueValidation)) (opt : Bool) (dflt : JValue) (v : JValue)
    (hp : jsPrimitive v = true) :
    (ISchemaProperty.SchemaProperty name rules opt dflt).isValid v = .error (inOperatorError name) := by
  cases rules with
  | none =>
    rw [ISchemaProperty.isValid]
    cases v <;> simp_all [jin, jsPrimitive]
  | some rs =>
    rw [ISchemaProperty.isValid]
    cases v <;> simp_all [jin, jsPrimitive]

/-- A nested schema requiring a string-typed `city` property, used as a
concrete instance below. -/
def citySchema : Schema :=
  .mk [.SchemaProperty "city" (some [.BasicValueValidation .String]) false .undefinedV]

/-- C2 counterexample: validation can throw.  `SubObjectValueValidation`
applied to `null` reaches `name in obj` inside the nested schema, and the
`in` operator throws a TypeError on a primitive operand; likewise
`SchemaProperty.isValid` on the number `5` throws instead of returning
false. -/
theorem subObject_isValueValid_throws_on_null :
    (IValueValidation.SubObjectValueValidation citySchema).isValueValid .null =
      .error (inOperatorError "city") ∧
    (ISchemaProperty.SchemaProperty "city" (some [.BasicValueValidation .String]) false
      .undefinedV).isValid (.num 5) = .error (inOperatorError "city") := by
  constructor
  · simp [IValueValidation.isValueValid, citySchema, Schema.isValid, ISchemaProperty.allLoop,
      ISchemaProperty.isValid, jin]
  · simp [ISchemaProperty.isValid, jin]

/-- C2 (amended): rule-level validation free of nested schemas never
throws for any value; schema validation of plain objects never throws when
its rules are nested-schema-free; and the property-variant `isValid`
throws the `in`-operator TypeError precisely on primitive arguments
(`null`, `undefined`, booleans, numbers, strings, symbols, bigints)
instead of returning false. -/
theorem validation_throw_boundary :
    (∀ r : IValueValidation, ∀ v : JValue, r.subFree = true →
      ∃ x, r.isValueValid v = .ok x) ∧
    (∀ s : Schema, ∀ fields : List (String × JValue), s.subFree = true →
      ∃ x, s.isValid (.obj fields) = .ok x) ∧
    (∀ name : String, ∀ rules : Option (List IValueValidation), ∀ opt : Bool,
      ∀ dflt v : JValue, jsPrimitive v = true →
      (ISchemaProperty.SchemaProperty name rules opt dflt).isValid v =
        .error (inOperatorError name)) :=
  ⟨IValueValidation.subFree_ok, Schema.schemaSubFree_ok_on_object,
    ISchemaProperty.isValid_throws_on_primitive⟩

/-- Witness for `validation_throw_boundary` at concrete inputs. -/
theorem validation_throw_boundary_witness :
    (∃ x, (IValueValidation.NullValueValidation).isValueValid .undefinedV = .ok x) ∧
    (ISchemaProperty.SchemaProperty "a" none false .undefinedV).isValid .null =
      .error (inOperatorError "a") :=
  ⟨validation_throw_boundary.1 .NullValueValidation .undefinedV
      (by simp [IValueValidation.subFree]),
    validation_throw_boundary.2.2 "a" none false .undefinedV .null (by simp [jsPrimitive])⟩

/-- C9: `InverseValueValidation` returns exactly the boolean negation of its
wrapped rule's result on every value (and propagates a throw unchanged). -/
theorem inverse_isValueValid_negates (r : IValueValidation) (v : JValue) :
    ((IValueValidation.InverseValueValidation r).isValueValid v).map (fun x => x.1) =
      (r.isValueValid v).map (fun x => !x.1) := by
  rw [IValueValidation.isValueValid]
  cases hr : r.isValueValid v with
  | ok x =>
    obtain ⟨b, fr, v'⟩ := x
    simp [hr, Except.map]
  | error e => simp [hr, Except.map]

/-- C10: validation is read-only.  Every successful `isValueValid`,
property `isValid`, `Schema.isValid` and `validateObjectSchema` call
returns the tested value unchanged; only the default-application API
mutates, as the final conjunct shows on a concrete object. -/
theorem validation_reads_only :
    (∀ r : IValueValidation, ∀ v : JValue, ∀ x, r.isValueValid v = .ok x → x.2.2 = v) ∧
    (∀ p : ISchemaProperty, ∀ v : JValue, ∀ x, p.isValid v = .ok x → x.2.2 = v) ∧
    (∀ s : Schema, ∀ v : JValue, ∀ x, s.isValid v = .ok x → x.2.2 = v) ∧
    (∀ c : SchemaCollection, ∀ obj : JValue, ∀ x,
      c.validateObjectSchema obj = .ok x → x.2.2 = obj) ∧
    (ISchemaProperty.testApplyDefault
        (.SchemaProperty "count" (some [.BasicValueValidation .Number]) false (.num 0))
        (.obj []) = .ok (.obj [("count", .num 0)]) ∧ JValue.obj [("count", .num 0)] ≠ .obj []) := by
  refine ⟨?_, ?_, ?_, ?_, ?_, ?_⟩
  · intro r v x h
    exact IValueValidation.isValueValid_frame r v x.1 x.2.1 x.2.2 (by rw [h])
  · intro p v x h
    exact ISchemaProperty.propIsValid_frame p v x.1 x.2.1 x.2.2 (by rw [h])
  · intro s v x h
    exact Schema.schemaIsValid_frame s v x.1 x.2.1 x.2.2 (by rw [h])
  · intro c obj x h
    exact SchemaCollection.validateLoop_frame c.options (c.options.getKeys) obj x.1 x.2.1 x.2.2
      (by rw [← h]; rfl)
  · simp [ISchemaProperty.testApplyDefault, ISchemaProperty.isValid, jin, objHasKey,
      JSRet.truthy, jset, objSet]
  · simp

/-- Witness for `validation_reads_only` at a concrete rule and value. -/
theorem validation_reads_only_witness :
    IValueValidation.NullValueValidation.isValueValid (.str "x") =
      .ok (false, "Value was not null", .str "x") ∧
    ((false, "Value was not null", JValue.str "x") : Bool × String × JValue).2.2 = .str "x" :=
  ⟨by simp [IValueValidation.isValueValid, isNullV],
    validation_reads_only.1 .NullValueValidation (.str "x") (false, "Value was not null", .str "x")
      (by simp [IValueValidation.isValueValid, isNullV])⟩

/-- The required, string-typed `name` property of the spec's concrete
scenario. -/
def specNameProperty : ISchemaProperty :=
  .SchemaProperty "name" (some [.BasicValueValidation .String]) false .undefinedV

/-- The optional, number-typed `age` property of the spec's concrete
scenario. -/
def specAgeProperty : ISchemaProperty :=
  .SchemaProperty "age" (some [.BasicValueValidation .Number]) true .undefinedV

/-- The object `{name: "Ann"}`. -/
def annObject : JValue := .obj [("name", .str "Ann")]

/-- C1: in the optional-and-absent branch `SchemaProperty.isValid` executes
a bare `return;`, so the `boolean`-typed method returns `undefined` rather
than `true`.  `Schema.isValid` then treats the `undefined` as falsy, so the
spec's own scenario `{name: "Ann"}` against (required `name`, optional
`age`) FAILS schema validation with an empty failure reason, where the spec
requires it to pass. -/
theorem optional_absent_property_returns_undefined :
    specAgeProperty.isValid annObject = .ok (.undefRet, "", annObject) ∧
    Schema.isValid (.mk [specNameProperty, specAgeProperty]) annObject =
      .ok (false, "", annObject) := by
  constructor
  · simp [specAgeProperty, annObject, ISchemaProperty.isValid, jin, objHasKey]
  · simp [specNameProperty, specAgeProperty, annObject, Schema.isValid,
      ISchemaProperty.allLoop, ISchemaProperty.isValid, jin, objHasKey, jget, objGet,
      IValueValidation.orLoop, IValueValidation.isValueValid, typeofTag, expectedString,
      JSRet.truthy]

/-- C7: `testApplyDefault` applies the default whenever `isValid` is falsy,
not exactly when it is `false`.  For the spec's `count` scenario the
contract holds (missing required property: default `0` is applied and
validation subsequently succeeds), but for an absent optional property
`isValid` returns `undefined` — not `false` — and the default is applied
anyway because `!undefined` is truthy. -/
theorem testApplyDefault_applies_on_falsy :
    ISchemaProperty.testApplyDefault
        (.SchemaProperty "count" (some [.BasicValueValidation .Number]) false (.num 0))
        (.obj []) = .ok (.obj [("count", .num 0)]) ∧
    (ISchemaProperty.SchemaProperty "count" (some [.BasicValueValidation .Number]) false
        (.num 0)).isValid (.obj [("count", .num 0)]) =
      .ok (.tru, "", .obj [("count", .num 0)]) ∧
    (ISchemaProperty.SchemaProperty "age" none true (.num 7)).isValid (.obj []) =
      .ok (.undefRet, "", .obj []) ∧
    ISchemaProperty.testApplyDefault (.SchemaProperty "age" none true (.num 7)) (.obj []) =
      .ok (.obj [("age", .num 7)]) := by
  refine ⟨?_, ?_, ?_, ?_⟩
  · simp [ISchemaProperty.testApplyDefault, ISchemaProperty.isValid, jin, objHasKey,
      JSRet.truthy, jset, objSet]
  · simp [ISchemaProperty.isValid, jin, objHasKey, jget, objGet,
      IValueValidation.orLoop, IValueValidation.isValueValid, typeofTag, expectedString]
  · simp [ISchemaProperty.isValid, jin, objHasKey]
  · simp [ISchemaProperty.testApplyDefault, ISchemaProperty.isValid, jin, objHasKey,
      JSRet.truthy, jset, objSet]

/-! ### Schema AND-semantics (C4) -/

/-- Whether a property's `isValid` result on `obj` is truthy (a throwing
evaluation counts as not-truthy; it never arises under the no-throw
hypotheses used below). -/
def propTruthy (obj : JValue) (p : ISchemaProperty) : Bool :=
  match p.isValid obj with
  | .ok (r, _, _) => r.truthy
  | .error _ => false

/-- The failure reasons of the non-truthy properties, in declaration
order. -/
def failingReasons (props : List ISchemaProperty) (obj : JValue) : List String :=
  props.filterMap (fun p =>
    match p.isValid obj with
    | .ok (r, fr, _) => if r.truthy then none else some fr
    | .error _ => none)

/-- The accumulation step of `Schema.isValid`: the first reason lands in
the empty accumulator as-is, later reasons are appended after a newline. -/
def jsAppend (acc fr : String) : String :=
  if acc = "" then fr else acc ++ "\n" ++ fr

theorem ISchemaProperty.allLoop_spec (props : List ISchemaProperty) (obj : JValue)
    (s0 : Bool) (acc0 : String) (hnt : ∀ p ∈ props, ∃ x, p.isValid obj = .ok x) :
    ISchemaProperty.allLoop props obj s0 acc0 =
      .ok (s0 && props.all (propTruthy obj), (failingReasons props obj).foldl jsAppend acc0,
        obj) := by
  induction props generalizing s0 acc0 with
  | nil => simp [ISchemaProperty.allLoop, failingReasons]
  | cons p ps ih =>
    obtain ⟨⟨r, fr, o⟩, hp⟩ := hnt p (by simp)
    have ho : o = obj := ISchemaProperty.propIsValid_frame p obj r fr o hp
    rw [ho] at hp
    have hnt' : ∀ q ∈ ps, ∃ x, q.isValid obj = .ok x := fun q hq => hnt q (by simp [hq])
    rw [ISchemaProperty.allLoop, hp]
    simp only
    cases hr : r.truthy with
    | true =>
      rw [if_pos rfl]
      rw [ih s0 acc0 hnt']
      have h1 : propTruthy obj p = true := by simp [propTruthy, hp, hr]
      have h2 : failingReasons (p :: ps) obj = failingReasons ps obj := by
        simp [failingReasons, hp, hr]
      rw [h2]
      simp [h1]
    | false =>
      simp only [Bool.false_eq_true, if_false]
      have hja : (if acc0 = "" then fr else acc0 ++ "\n" ++ fr) = jsAppend acc0 fr := rfl
      rw [hja, ih false (jsAppend acc0 fr) hnt']
      have h1 : propTruthy obj p = false := by simp [propTruthy, hp, hr]
      have h2 : failingReasons (p :: ps) obj = fr :: failingReasons ps obj := by
        simp [failingReasons, hp, hr]
      rw [h2]
      simp [h1, jsAppend, List.foldl_cons]

/-- C4: `Schema.isValid` resets the failure reason, evaluates every
property (even after a failure), appends each failing property's reason to
the schema reason — first reason into the empty accumulator, later reasons
newline-separated — in declaration order, and returns true exactly when
every property's `isValid` returned `true`. -/
theorem schema_isValid_and_semantics (props : List ISchemaProperty) (obj : JValue)
    (hnt : ∀ p ∈ props, ∃ x, p.isValid obj = .ok x) :
    Schema.isValid (.mk props) obj =
      .ok (props.all (propTruthy obj), (failingReasons props obj).foldl jsAppend "", obj) ∧
    (props.all (propTruthy obj) = true ↔
      ∀ p ∈ props, ∃ fr o, p.isValid obj = .ok (.tru, fr, o)) := by
  constructor
  · rw [Schema.isValid, ISchemaProperty.allLoop_spec props obj true "" hnt]
    simp
  · rw [List.all_eq_true]
    constructor
    · intro hall p hp
      obtain ⟨⟨r, fr, o⟩, hx⟩ := hnt p hp
      have := hall p hp
      rw [propTruthy, hx] at this
      simp only at this
      cases r with
      | tru => exact ⟨fr, o, hx⟩
      | fls => simp [JSRet.truthy] at this
      | undefRet => simp [JSRet.truthy] at this
    · intro hall p hp
      obtain ⟨fr, o, hx⟩ := hall p hp
      rw [propTruthy, hx]
      simp [JSRet.truthy]

/-- Witness for `schema_isValid_and_semantics`: a schema with a missing
required property and a forbidden present property collects both failure
reasons, newline-separated, in declaration order. -/
theorem schema_isValid_and_semantics_witness :
    Schema.isValid (.mk [specNameProperty, .InvalidProperty "x"]) (.obj [("x", .bool true)]) =
      .ok (false,
        "Value is missing property \x27name\x27\nValue had property \x27x\x27",
        .obj [("x", .bool true)]) := by
  have h := (schema_isValid_and_semantics [specNameProperty, .InvalidProperty "x"]
    (.obj [("x", .bool true)]) ?_).1
  · rw [h]
    simp [propTruthy, failingReasons, specNameProperty, ISchemaProperty.isValid, jin,
      objHasKey, jget, objGet, isUndefV, JSRet.truthy, jsAppend]
  · intro p hp
    simp only [List.mem_cons, List.mem_singleton] at hp
    rcases hp with h1 | h1 | h1
    · subst h1
      exact ⟨(.fls, "Value is missing property \x27name\x27", .obj [("x", .bool true)]),
        by simp [specNameProperty, ISchemaProperty.isValid, jin, objHasKey]⟩
    · subst h1
      exact ⟨(.fls, "Value had property \x27x\x27", .obj [("x", .bool true)]),
        by simp [ISchemaProperty.isValid, jget, objGet, isUndefV]⟩
    · cases h1

/-! ### ArrayValueValidation semantics (C6, C3) -/

theorem IValueValidation.orLoop_true_exists (rs : List IValueValidation) (v : JValue)
    (frs : List String) (v' : JValue) (h : IValueValidation.orLoop rs v = .ok (true, frs, v')) :
    ∃ r ∈ rs, (r.isValueValid v).map (fun x => x.1) = .ok true := by
  induction rs generalizing v frs v' with
  | nil => simp [IValueValidation.orLoop] at h
  | cons r rest ih =>
    rw [IValueValidation.orLoop] at h
    match hr : r.isValueValid v with
    | .ok (true, fr0, v0) => exact ⟨r, by simp, by simp [hr, Except.map]⟩
    | .ok (false, fr0, v0) =>
      rw [hr] at h
      simp only at h
      match hl : IValueValidation.orLoop rest v0 with
      | .ok (b2, frs2, v2) =>
        rw [hl] at h
        simp at h
        have hv0 : v0 = v := IValueValidation.isValueValid_frame r v false fr0 v0 hr
        rw [hv0, h.1] at hl
        obtain ⟨r2, hr2, hm⟩ := ih v frs2 v2 hl
        exact ⟨r2, by simp [hr2], hm⟩
      | .error e => rw [hl] at h; simp at h
    | .error e => rw [hr] at h; simp at h

theorem IValueValidation.orLoop_false_all (rs : List IValueValidation) (v : JValue)
    (frs : List String) (v' : JValue) (h : IValueValidation.orLoop rs v = .ok (false, frs, v')) :
    ∀ r ∈ rs, (r.isValueValid v).map (fun x => x.1) = .ok false := by
  induction rs generalizing v frs v' with
  | nil => simp
  | cons r rest ih =>
    rw [IValueValidation.orLoop] at h
    match hr : r.isValueValid v with
    | .ok (true, fr0, v0) => rw [hr] at h; simp at h
    | .ok (false, fr0, v0) =>
      rw [hr] at h
      simp only at h
      match hl : IValueValidation.orLoop rest v0 with
      | .ok (b2, frs2, v2) =>
        rw [hl] at h
        simp at h
        have hv0 : v0 = v := IValueValidation.isValueValid_frame r v false fr0 v0 hr
        rw [hv0, h.1] at hl
        intro r2 hr2
        rcases List.mem_cons.mp hr2 with h2 | h2
        · subst h2; simp [hr, Except.map]
        · exact ih v frs2 v2 hl r2 h2
      | .error e => rw [hl] at h; simp at h
    | .error e => rw [hr] at h; simp at h

theorem IValueValidation.arrLoop_none_all (cs : List IValueValidation) (elems : List JValue)
    (i : Nat) (elems' : List JValue) (h : IValueValidation.arrLoop cs elems i = .ok (none, elems')) :
    ∀ e ∈ elems, ∃ frs e0, IValueValidation.orLoop cs e = .ok (true, frs, e0) := by
  induction elems generalizing i elems' with
  | nil => simp
  | cons e rest ih =>
    rw [IValueValidation.arrLoop] at h
    match ho : IValueValidation.orLoop cs e with
    | .ok (true, frs0, e0) =>
      rw [ho] at h
      simp only at h
      match hl : IValueValidation.arrLoop cs rest (i + 1) with
      | .ok (res2, rest2) =>
        rw [hl] at h
        simp at h
        intro x hx
        rcases List.mem_cons.mp hx with h2 | h2
        · subst h2; exact ⟨frs0, e0, ho⟩
        · rw [h.1] at hl
          exact ih (i + 1) rest2 hl x h2
      | .error er => rw [hl] at h; simp at h
    | .ok (false, frs0, e0) => rw [ho] at h; simp at h
    | .error er => rw [ho] at h; simp at h

theorem IValueValidation.arrLoop_some_exists (cs : List IValueValidation) (elems : List JValue)
    (i : Nat) (msg : String) (elems' : List JValue)
    (h : IValueValidation.arrLoop cs elems i = .ok (some msg, elems')) :
    ∃ e ∈ elems, ∃ frs e0, IValueValidation.orLoop cs e = .ok (false, frs, e0) := by
  induction elems generalizing i elems' with
  | nil => simp [IValueValidation.arrLoop] at h
  | cons e rest ih =>
    rw [IValueValidation.arrLoop] at h
    match ho : IValueValidation.orLoop cs e with
    | .ok (true, frs0, e0) =>
      rw [ho] at h
      simp only at h
      match hl : IValueValidation.arrLoop cs rest (i + 1) with
      | .ok (res2, rest2) =>
        rw [hl] at h
        simp at h
        rw [h.1] at hl
        obtain ⟨x, hx, frs2, e2, hx2⟩ := ih (i + 1) rest2 hl
        exact ⟨x, by simp [hx], frs2, e2, hx2⟩
      | .error er => rw [hl] at h; simp at h
    | .ok (false, frs0, e0) => exact ⟨e, by simp, frs0, e0, ho⟩
    | .error er => rw [ho] at h; simp at h

/-- C6: for every `ArrayValueValidation`: a non-array value always fails
with the fixed reason; the empty array always passes whatever the child
rules; and with a non-empty child-rule list, a successfully evaluated
array passes exactly when every element matches at least one child
rule. -/
theorem arrayRule_semantics :
    (∀ children : Option (List IValueValidation), ∀ v : JValue, isArrayV v = false →
      (IValueValidation.ArrayValueValidation children).isValueValid v =
        .ok (false, "Supplied value was not an array", v)) ∧
    (∀ children : Option (List IValueValidation),
      (IValueValidation.ArrayValueValidation children).isValueValid (.arr []) =
        .ok (true, "", .arr [])) ∧
    (∀ cs : List IValueValidation, ∀ elems : List JValue, ∀ b : Bool, ∀ fr : String,
      ∀ v' : JValue, cs ≠ [] →
      (IValueValidation.ArrayValueValidation (some cs)).isValueValid (.arr elems) =
        .ok (b, fr, v') →
      (b = true ↔ ∀ e ∈ elems, ∃ r ∈ cs, (r.isValueValid e).map (fun x => x.1) = .ok true)) := by
  refine ⟨?_, ?_, ?_⟩
  · intro children v hv
    cases v <;> simp [isArrayV] at hv ⊢ <;> rw [IValueValidation.isValueValid]
  · intro children
    cases children with
    | none => rw [IValueValidation.isValueValid]
    | some cs => rw [IValueValidation.isValueValid, IValueValidation.arrLoop]
  · intro cs elems b fr v' _ h
    rw [IValueValidation.isValueValid] at h
    match hl : IValueValidation.arrLoop cs elems 0 with
    | .ok (none, elems') =>
      rw [hl] at h
      simp at h
      rw [h.1]
      simp only [true_iff]
      intro e he
      obtain ⟨frs0, e0, ho⟩ := IValueValidation.arrLoop_none_all cs elems 0 elems' hl e he
      exact IValueValidation.orLoop_true_exists cs e frs0 e0 ho
    | .ok (some msg, elems') =>
      rw [hl] at h
      simp at h
      rw [h.1]
      simp only [Bool.false_eq_true, false_iff]
      intro hall
      obtain ⟨e, he, frs0, e0, ho⟩ := IValueValidation.arrLoop_some_exists cs elems 0 msg elems' hl
      obtain ⟨r, hr, hm⟩ := hall e he
      have := IValueValidation.orLoop_false_all cs e frs0 e0 ho r hr
      rw [hm] at this
      simp at this
    | .error e => rw [hl] at h; simp at h

/-- Witness for `arrayRule_semantics` at concrete inputs: `5` is not an
array; `[]` passes a string-typed rule; `["a", true]` fails it because of
the second element. -/
theorem arrayRule_semantics_witness :
    (IValueValidation.ArrayValueValidation (some [.BasicValueValidation .String])).isValueValid
      (.num 5) = .ok (false, "Supplied value was not an array", .num 5) ∧
    ¬(true = true ↔ ∀ e ∈ [JValue.str "a", JValue.bool true],
      ∃ r ∈ [IValueValidation.BasicValueValidation .String],
        (r.isValueValid e).map (fun x => x.1) = .ok true) := by
  constructor
  · exact arrayRule_semantics.1 (some [.BasicValueValidation .String]) (.num 5) (by simp [isArrayV])
  · have h3 := arrayRule_semantics.2.2 [.BasicValueValidation .String]
      [.str "a", .bool true] false
      ("Array value at index 1 failed conditions [Value was of type \x27boolean\x27 when was expecting \x27string\x27]")
      (.arr [.str "a", .bool true]) (by simp)
      (by
        simp [IValueValidation.isValueValid, IValueValidation.arrLoop, IValueValidation.orLoop,
          typeofTag, expectedString]
        rfl)
    rw [← h3]
    simp

theorem IValueValidation.arrLoop_first_failure (cs : List IValueValidation) (e : JValue)
    (frs : List String) (e' : JValue) (tail : List JValue)
    (hfail : IValueValidation.orLoop cs e = .ok (false, frs, e')) :
    ∀ pre : List JValue, ∀ i : Nat,
    (∀ x ∈ pre, ∃ frs0 x0, IValueValidation.orLoop cs x = .ok (true, frs0, x0)) →
    IValueValidation.arrLoop cs (pre ++ e :: tail) i =
      .ok (some ("Array value at index " ++ toString (i + pre.length) ++
        " failed conditions [" ++ String.intercalate " | " frs ++ "]"), pre ++ e :: tail) := by
  intro pre
  induction pre with
  | nil =>
    intro i _
    rw [List.nil_append, IValueValidation.arrLoop, hfail]
    have he' : e' = e := IValueValidation.orLoop_frame cs e false frs e' hfail
    simp [he']
  | cons x xs ih =>
    intro i hpre
    obtain ⟨frs0, x0, hx⟩ := hpre x (by simp)
    have hx0 : x0 = x := IValueValidation.orLoop_frame cs x true frs0 x0 hx
    rw [List.cons_append, IValueValidation.arrLoop, hx]
    have ihx := ih (i + 1) (fun y hy => hpre y (by simp [hy]))
    rw [ihx]
    have harith : i + 1 + xs.length = i + (xs.length + 1) := by omega
    simp [hx0, harith]

/-- C3 (amended): with a non-empty child-rule list, `isValueValid` fails at
the FIRST element that matches no child rule — the elements after it are
never examined (the conclusion holds for every tail) — and the failure
reason is `Array value at index <i> failed conditions [...]` where the
bracketed list joins the child rules' `failureReason` values as read after
that element's checks, in (complexity-sorted) rule order. -/
theorem arrayRule_first_failure_message (cs : List IValueValidation) (pre tail : List JValue)
    (e : JValue) (frs : List String) (e' : JValue)
    (hpre : ∀ x ∈ pre, ∃ frs0 x0, IValueValidation.orLoop cs x = .ok (true, frs0, x0))
    (hfail : IValueValidation.orLoop cs e = .ok (false, frs, e')) :
    (IValueValidation.ArrayValueValidation (some cs)).isValueValid (.arr (pre ++ e :: tail)) =
      .ok (false, "Array value at index " ++ toString pre.length ++
        " failed conditions [" ++ String.intercalate " | " frs ++ "]",
        .arr (pre ++ e :: tail)) := by
  rw [IValueValidation.isValueValid,
    IValueValidation.arrLoop_first_failure cs e frs e' tail hfail pre 0 hpre]
  simp

/-- Witness for `arrayRule_first_failure_message`: with a string-typed
child rule, `["a", true, 3]` fails at index 1 with the child's
`failureReason` for `true`, and the element `3` after it is never
examined. -/
theorem arrayRule_first_failure_message_witness :
    (IValueValidation.ArrayValueValidation
        (some [.BasicValueValidation .String])).isValueValid
      (.arr [.str "a", .bool true, .num 3]) =
      .ok (false,
        "Array value at index 1 failed conditions [Value was of type \x27boolean\x27 when was expecting \x27string\x27]",
        .arr [.str "a", .bool true, .num 3]) := by
  have h := arrayRule_first_failure_message [.BasicValueValidation .String]
    [.str "a"] [.num 3] (.bool true)
    ["Value was of type \x27boolean\x27 when was expecting \x27string\x27"] (.bool true)
    (by
      intro x hx
      simp at hx
      subst hx
      exact ⟨[""], .str "a",
        by simp [IValueValidation.orLoop, IValueValidation.isValueValid, typeofTag, expectedString]⟩)
    (by simp [IValueValidation.orLoop, IValueValidation.isValueValid, typeofTag, expectedString])
  simpa using h

/-- C3 counterexample: the bracketed list in the array failure message is
built from the child rules' `failureReason` values, not from their
`displayString`; for a string-typed child rule on `[true]` the produced
message differs from the displayString-based message the claim
predicts. -/
theorem arrayRule_message_not_displayString :
    (IValueValidation.ArrayValueValidation
        (some [.BasicValueValidation .String])).isValueValid (.arr [.bool true]) =
      .ok (false,
        "Array value at index 0 failed conditions [Value was of type \x27boolean\x27 when was expecting \x27string\x27]",
        .arr [.bool true]) ∧
    (IValueValidation.BasicValueValidation .String).displayString = "value === \x27string\x27" ∧
    "Array value at index 0 failed conditions [Value was of type \x27boolean\x27 when was expecting \x27string\x27]" ≠
      "Array value at index 0 failed conditions [value === \x27string\x27]" := by
  refine ⟨?_, ?_, ?_⟩
  · simp [IValueValidation.isValueValid, IValueValidation.arrLoop, IValueValidation.orLoop,
      typeofTag, expectedString]
    rfl
  · rw [IValueValidation.displayString]; rfl
  · decide

/-! ### SchemaCollection (C5, C8) -/

/-- Whether the schema registered under `k` validates `obj` (false when the
key is missing or validation throws; neither arises under the hypotheses
used below). -/
def keyMatches (d : Dictionary) (obj : JValue) (k : String) : Bool :=
  match d.get k with
  | .ok s =>
    match s.isValid obj with
    | .ok (b, _, _) => b
    | .error _ => false
  | .error _ => false

theorem Dictionary.getKeys_nonNumeric (d : Dictionary)
    (h : ∀ k ∈ d.entries.map (fun p => p.1), jsArrayIndex k = none) :
    d.getKeys = d.entries.map (fun p => p.1) := by
  rw [Dictionary.getKeys]
  have h1 : (d.entries.map (fun p => p.1)).filter (fun k => (jsArrayIndex k).isSome) = [] := by
    rw [List.filter_eq_nil_iff]
    intro k hk
    simp [h k hk]
  have h2 : (d.entries.map (fun p => p.1)).filter (fun k => (jsArrayIndex k).isNone) =
      d.entries.map (fun p => p.1) := by
    rw [List.filter_eq_self]
    intro k hk
    simp [h k hk]
  simp only [h1, h2]
  rw [sortByRank]
  simp

theorem SchemaCollection.validateLoop_find (d : Dictionary) (ks : List String) (obj : JValue)
    (hnt : ∀ k ∈ ks, ∃ s, d.get k = .ok s ∧ ∃ x, s.isValid obj = .ok x) :
    SchemaCollection.validateLoop d ks obj =
      .ok (match ks.find? (keyMatches d obj) with
        | some k => (true, some k, obj)
        | none => (false, none, obj)) := by
  induction ks with
  | nil => simp [SchemaCollection.validateLoop]
  | cons k rest ih =>
    obtain ⟨s, hg, ⟨⟨b, m, o⟩, hv⟩⟩ := hnt k (by simp)
    have ho : o = obj := Schema.schemaIsValid_frame s obj b m o hv
    rw [ho] at hv
    rw [SchemaCollection.validateLoop]
    have hkm : keyMatches d obj k = b := by simp only [keyMatches, hg, hv]
    cases b with
    | true =>
      simp only [hg, hv]
      rw [List.find?_cons_of_pos _ (by rw [hkm])]
    | false =>
      simp only [hg, hv]
      rw [List.find?_cons_of_neg _ (by rw [hkm]; simp)]
      exact ih (fun k2 hk2 => hnt k2 (by simp [hk2]))

/-- C5 (amended): `validateObjectSchema` scans the registered schemas in
`Object.keys` enumeration order — canonical array-index keys first, in
ascending numeric order, then the remaining keys in registration order —
returning the first key whose schema validates the object and
`(false, undefined)` when none does.  When no registered key is a
canonical numeric string, that order is exactly registration order, so the
earlier-registered of two matching schemas wins regardless of alphabetical
order. -/
theorem collection_first_match_order :
    (∀ d : Dictionary, (∀ k ∈ d.entries.map (fun p => p.1), jsArrayIndex k = none) →
      d.getKeys = d.entries.map (fun p => p.1)) ∧
    (∀ c : SchemaCollection, ∀ obj : JValue,
      (∀ k ∈ c.options.getKeys, ∃ s, c.options.get k = .ok s ∧ ∃ x, s.isValid obj = .ok x) →
      c.validateObjectSchema obj =
        .ok (match (c.options.getKeys).find? (keyMatches c.options obj) with
          | some k => (true, some k, obj)
          | none => (false, none, obj))) := by
  refine ⟨Dictionary.getKeys_nonNumeric, ?_⟩
  intro c obj hnt
  rw [SchemaCollection.validateObjectSchema]
  exact SchemaCollection.validateLoop_find c.options (c.options.getKeys) obj hnt

/-- A schema every object without a `zz` key satisfies. -/
def zzSchema : Schema := .mk [.InvalidProperty "zz"]

/-- Witness for `collection_first_match_order`: two matching schemas under
the non-numeric keys `b` (registered first) and `a`; the first match is
`b`, the registration order, not the alphabetical order. -/
theorem collection_first_match_order_witness :
    Dictionary.getKeys ⟨[("b", zzSchema), ("a", zzSchema)]⟩ = ["b", "a"] ∧
    SchemaCollection.validateObjectSchema ⟨⟨[("b", zzSchema), ("a", zzSchema)]⟩⟩ (.obj []) =
      .ok (true, some "b", .obj []) := by
  have hz : zzSchema.isValid (.obj []) = .ok (true, "", .obj []) := by
    simp [zzSchema, Schema.isValid, ISchemaProperty.allLoop, ISchemaProperty.isValid,
      jget, objGet, isUndefV, JSRet.truthy]
  have hkeys : Dictionary.getKeys ⟨[("b", zzSchema), ("a", zzSchema)]⟩ = ["b", "a"] :=
    collection_first_match_order.1 ⟨[("b", zzSchema), ("a", zzSchema)]⟩ (by
      intro k hk
      simp at hk
      rcases hk with h | h <;> subst h <;> rfl)
  refine ⟨hkeys, ?_⟩
  have h2 := collection_first_match_order.2 ⟨⟨[("b", zzSchema), ("a", zzSchema)]⟩⟩ (.obj []) (by
    intro k hk
    rw [hkeys] at hk
    simp at hk
    rcases hk with h | h <;> subst h
    · exact ⟨zzSchema, by rw [Dictionary.get]; rfl, ⟨(true, "", .obj []), hz⟩⟩
    · exact ⟨zzSchema, by rw [Dictionary.get]; rfl, ⟨(true, "", .obj []), hz⟩⟩)
  rw [h2]
  have hb : keyMatches ⟨[("b", zzSchema), ("a", zzSchema)]⟩ (.obj []) "b" = true := by
    rw [keyMatches]
    simp only [show Dictionary.get ⟨[("b", zzSchema), ("a", zzSchema)]⟩ "b" = .ok zzSchema from rfl,
      hz]
  rw [hkeys, List.find?_cons_of_pos _ hb]

/-- C5 counterexample: registration under the numeric keys `2` then `1`.
`Object.keys` enumerates canonical array-index keys in ascending numeric
order, so `validateObjectSchema` returns the LATER-registered `1`, not the
earlier-registered `2` the claim requires. -/
theorem numeric_keys_break_registration_order :
    SchemaCollection.addSchema ⟨⟨[]⟩⟩ "2" zzSchema = .ok ⟨⟨[("2", zzSchema)]⟩⟩ ∧
    SchemaCollection.addSchema ⟨⟨[("2", zzSchema)]⟩⟩ "1" zzSchema =
      .ok ⟨⟨[("2", zzSchema), ("1", zzSchema)]⟩⟩ ∧
    SchemaCollection.validateObjectSchema ⟨⟨[("2", zzSchema), ("1", zzSchema)]⟩⟩ (.obj []) =
      .ok (true, some "1", .obj []) ∧
    (some "1" : Option String) ≠ some "2" := by
  refine ⟨rfl, rfl, ?_, by simp⟩
  have hkeys : Dictionary.getKeys ⟨[("2", zzSchema), ("1", zzSchema)]⟩ = ["1", "2"] := rfl
  rw [SchemaCollection.validateObjectSchema]
  rw [show (SchemaCollection.mk ⟨[("2", zzSchema), ("1", zzSchema)]⟩).options =
    (⟨[("2", zzSchema), ("1", zzSchema)]⟩ : Dictionary) from rfl, hkeys]
  rw [SchemaCollection.validateLoop]
  rw [show Dictionary.get ⟨[("2", zzSchema), ("1", zzSchema)]⟩ "1" = .ok zzSchema from rfl]
  simp [zzSchema, Schema.isValid, ISchemaProperty.allLoop, ISchemaProperty.isValid,
    jget, objGet, isUndefV, JSRet.truthy]

theorem Dictionary.objSetSchema_find (l : List (String × Schema)) (k : String) (s : Schema) :
    (Dictionary.replace.objSetSchema l k s).find? (fun p => p.1 = k) = some (k, s) := by
  induction l with
  | nil => simp [Dictionary.replace.objSetSchema]
  | cons p rest ih =>
    rw [Dictionary.replace.objSetSchema]
    by_cases hp : p.1 = k
    · rw [if_pos hp]
      simp
    · rw [if_neg hp]
      rw [List.find?_cons_of_neg _ (by simp [hp])]
      exact ih

theorem Dictionary.objSetSchema_hasKey (l : List (String × Schema)) (k : String) (s : Schema) :
    (Dictionary.replace.objSetSchema l k s).any (fun p => p.1 = k) = true := by
  induction l with
  | nil => simp [Dictionary.replace.objSetSchema]
  | cons p rest ih =>
    rw [Dictionary.replace.objSetSchema]
    by_cases hp : p.1 = k
    · rw [if_pos hp]; simp
    · rw [if_neg hp]; simp [ih]

/-- C8: `addSchema` throws the duplicate-key error when the key is
registered and otherwise appends the entry; `replaceSchema` always
succeeds and the key subsequently holds the new schema; `remove` reports
whether an entry was present, leaves the collection unchanged when it was
not, and the key is gone afterwards either way. -/
theorem collection_add_replace_remove :
    (∀ c : SchemaCollection, ∀ k : String, ∀ s : Schema, c.hasSchema k = true →
      c.addSchema k s = .error
        ("DuplicateKeyException: There is already a value stored under the key \x27" ++ k ++ "\x27")) ∧
    (∀ c : SchemaCollection, ∀ k : String, ∀ s : Schema, c.hasSchema k = false →
      c.addSchema k s = .ok ⟨⟨c.options.entries ++ [(k, s)]⟩⟩) ∧
    (∀ c : SchemaCollection, ∀ k : String, ∀ s : Schema,
      (c.replaceSchema k s).getSchema k = some s) ∧
    (∀ c : SchemaCollection, ∀ k : String, (c.remove k).1 = c.hasSchema k) ∧
    (∀ c : SchemaCollection, ∀ k : String, c.hasSchema k = false → (c.remove k).2 = c) ∧
    (∀ c : SchemaCollection, ∀ k : String, (c.remove k).2.hasSchema k = false) := by
  refine ⟨?_, ?_, ?_, ?_, ?_, ?_⟩
  · intro c k s h
    rw [SchemaCollection.hasSchema] at h
    rw [SchemaCollection.addSchema, Dictionary.add, if_pos h]
  · intro c k s h
    rw [SchemaCollection.hasSchema] at h
    rw [SchemaCollection.addSchema, Dictionary.add, if_neg (by simp [h])]
  · intro c k s
    rw [SchemaCollection.replaceSchema, Dictionary.replace]
    by_cases hk : c.options.hasKey k
    · rw [if_pos hk]
      rw [SchemaCollection.getSchema]
      rw [if_pos (by
        rw [Dictionary.hasKey]
        exact Dictionary.objSetSchema_hasKey c.options.entries k s)]
      rw [Dictionary.get]
      rw [Dictionary.objSetSchema_find c.options.entries k s]
    · rw [if_neg hk]
      have hnone : c.options.entries.find? (fun p => p.1 = k) = none := by
        rw [List.find?_eq_none]
        intro p hp hpk
        rw [Dictionary.hasKey] at hk
        exact hk (List.any_eq_true.mpr ⟨p, hp, hpk⟩)
      rw [SchemaCollection.getSchema]
      rw [if_pos (by
        rw [Dictionary.hasKey]
        simp [List.any_append])]
      rw [Dictionary.get, List.find?_append, hnone]
      simp
  · intro c k
    rw [SchemaCollection.remove, Dictionary.remove]
    by_cases hk : c.options.hasKey k
    · rw [if_pos hk]
      rw [SchemaCollection.hasSchema, hk]
    · rw [if_neg hk]
      rw [SchemaCollection.hasSchema]
      simp at hk
      rw [hk]
  · intro c k h
    rw [SchemaCollection.hasSchema] at h
    rw [SchemaCollection.remove, Dictionary.remove, if_neg (by simp [h])]
  · intro c k
    rw [SchemaCollection.remove, Dictionary.remove]
    by_cases hk : c.options.hasKey k
    · rw [if_pos hk]
      rw [SchemaCollection.hasSchema, Dictionary.hasKey]
      simp [List.any_eq_true, List.mem_filter]
    · rw [if_neg hk]
      rw [SchemaCollection.hasSchema]
      simp at hk
      rw [hk]

/-- Witness for `collection_add_replace_remove` at a concrete collection:
adding a duplicate key fails, replacing it succeeds, removing an absent
key reports false and leaves the collection unchanged. -/
theorem collection_add_replace_remove_witness :
    SchemaCollection.addSchema ⟨⟨[("k", zzSchema)]⟩⟩ "k" citySchema =
      .error "DuplicateKeyException: There is already a value stored under the key \x27k\x27" ∧
    (SchemaCollection.replaceSchema ⟨⟨[("k", zzSchema)]⟩⟩ "k" citySchema).getSchema "k" =
      some citySchema ∧
    (SchemaCollection.remove ⟨⟨[("k", zzSchema)]⟩⟩ "z").2 = ⟨⟨[("k", zzSchema)]⟩⟩ := by
  refine ⟨?_, ?_, ?_⟩
  · have h := collection_add_replace_remove.1 ⟨⟨[("k", zzSchema)]⟩⟩ "k" citySchema rfl
    rw [h]
    rfl
  · exact collection_add_replace_remove.2.2.1 ⟨⟨[("k", zzSchema)]⟩⟩ "k" citySchema
  · exact collection_add_replace_remove.2.2.2.2.1 ⟨⟨[("k", zzSchema)]⟩⟩ "z" rfl
